import Mathlib

/-!
Verification of the core of the gost proxy gateway (SNI obfuscation codec,
SNI ClientHello rewriting, auto protocol dispatch, Hosts lookup, Bypass
policy, resolver configuration, and the fail filter).

Go strings and byte slices are modelled as `List Nat` (byte values);
Go `int`/`int64`/`time.Duration` as `Int` (durations in nanoseconds);
Go `uint32` as `Nat` values below `2^32`, with explicit `% 2^32` where the
source converts.
-/

/-- Byte values (code points) of an ASCII string literal. -/
def asciiBytes (s : String) : List Nat := s.data.map Char.toNat

/-! ## base64 RawURLEncoding (model of Go `encoding/base64`, URL alphabet,
no padding).  The encoder maps 3-byte groups to 4 alphabet bytes; the decoder
ignores CR/LF, rejects bytes outside the alphabet, rejects a leftover group of
one byte, and (like Go's non-strict decoder) ignores unused trailing bits. -/

/-- The URL-safe base64 alphabet: value `n < 64` to ASCII code. -/
def b64CharOf (n : Nat) : Nat :=
  if n < 26 then 65 + n
  else if n < 52 then 97 + (n - 26)
  else if n < 62 then 48 + (n - 52)
  else if n = 62 then 45
  else 95

/-- Inverse alphabet lookup (the decode map); `none` for bytes outside the
URL alphabet. -/
def b64ValOf (c : Nat) : Option Nat :=
  if 65 ≤ c ∧ c ≤ 90 then some (c - 65)
  else if 97 ≤ c ∧ c ≤ 122 then some (26 + (c - 97))
  else if 48 ≤ c ∧ c ≤ 57 then some (52 + (c - 48))
  else if c = 45 then some 62
  else if c = 95 then some 63
  else none

/-- Encode byte groups of three into four alphabet bytes (remainders of one
and two bytes yield two and three alphabet bytes). -/
def b64EncGroups : List Nat → List Nat
  | [] => []
  | [a] => [b64CharOf (a / 4), b64CharOf (a % 4 * 16)]
  | [a, b] => [b64CharOf (a / 4), b64CharOf (a % 4 * 16 + b / 16), b64CharOf (b % 16 * 4)]
  | a :: b :: c :: rest =>
      b64CharOf (a / 4) :: b64CharOf (a % 4 * 16 + b / 16) ::
        b64CharOf (b % 16 * 4 + c / 64) :: b64CharOf (c % 64) :: b64EncGroups rest

/-- Look up every input byte in the decode map; `none` on the first invalid
byte. -/
def b64Vals : List Nat → Option (List Nat)
  | [] => some []
  | c :: rest =>
      match b64ValOf c with
      | none => none
      | some v => (b64Vals rest).map (v :: ·)

/-- Reassemble decoded sextet groups of four into three bytes; a leftover
group of one sextet is invalid, leftovers of two and three yield one and two
bytes with trailing bits ignored. -/
def b64DecGroups : List Nat → Option (List Nat)
  | [] => some []
  | [_] => none
  | [a, b] => some [a * 4 + b / 16]
  | [a, b, c] => some [a * 4 + b / 16, b % 16 * 16 + c / 4]
  | a :: b :: c :: d :: rest =>
      (b64DecGroups rest).map
        (fun l => (a * 4 + b / 16) :: (b % 16 * 16 + c / 4) :: (c % 4 * 64 + d) :: l)

/-- Model of `base64.RawURLEncoding.EncodeToString`. -/
def base64RawURLEncode (bytes : List Nat) : List Nat := b64EncGroups bytes

/-- Model of `base64.RawURLEncoding.DecodeString`: CR and LF bytes are
ignored, then the input is mapped through the decode map and regrouped. -/
def base64RawURLDecode (s : List Nat) : Option (List Nat) :=
  (b64Vals (s.filter (fun c => c != 13 && c != 10))).bind b64DecGroups

/-! ## CRC-32 (IEEE), as computed by Go `hash/crc32.ChecksumIEEE`:
reflected polynomial `0xEDB88320`, initial value `0xFFFFFFFF`, final
complement. -/

/-- One bit step of the reflected CRC-32 division. -/
def crc32Step (c : Nat) : Nat :=
  if c % 2 = 1 then c / 2 ^^^ 0xEDB88320 else c / 2

/-- Fold one input byte into the CRC state (eight bit steps). -/
def crc32Byte (c b : Nat) : Nat := crc32Step^[8] (c ^^^ b)

/-- Model of `crc32.ChecksumIEEE`. -/
def crc32 (data : List Nat) : Nat :=
  (data.foldl crc32Byte 0xFFFFFFFF) ^^^ 0xFFFFFFFF

/-- The four big-endian bytes of a `uint32` (model of `binary.Write` with
`binary.BigEndian` on a `uint32` value). -/
def be32Bytes (c : Nat) : List Nat :=
  [c / 16777216 % 256, c / 65536 % 256, c / 256 % 256, c % 256]

/-- Model of `binary.BigEndian.Uint32` on the first four bytes. -/
def be32ToNat : List Nat → Nat
  | b0 :: b1 :: b2 :: b3 :: _ => b0 * 16777216 + b1 * 65536 + b2 * 256 + b3
  | _ => 0

/-! ## The server-name obfuscation codec (`encodeServerName` /
`decodeServerName` in `sni.go`). -/

/-- Model of `encodeServerName`: base64url-no-pad of the big-endian CRC-32 of
the name followed by the base64url-no-pad encoding of the name. -/
def encodeServerName (name : List Nat) : List Nat :=
  base64RawURLEncode (be32Bytes (crc32 name) ++ base64RawURLEncode name)

/-- Model of `decodeServerName`: outer base64 decode, length check, inner
base64 decode of everything past the four-byte CRC prefix, CRC comparison. -/
def decodeServerName (s : List Nat) : Option (List Nat) :=
  (base64RawURLDecode s).bind fun b =>
    if b.length < 4 then none
    else
      (base64RawURLDecode (b.drop 4)).bind fun v =>
        if crc32 v != be32ToNat (b.take 4) then none else some v

/-! ### Lemmas: the base64 model round-trips on byte lists. -/

theorem b64CharOf_bounds (n : Nat) : 45 ≤ b64CharOf n ∧ b64CharOf n ≤ 122 := by
  unfold b64CharOf
  repeat' split
  all_goals omega

theorem b64ValOf_b64CharOf {n : Nat} (h : n < 64) : b64ValOf (b64CharOf n) = some n := by
  revert h
  revert n
  decide

theorem mem_b64EncGroups_bounds (x : List Nat) (c : Nat) (hc : c ∈ b64EncGroups x) :
    45 ≤ c ∧ c ≤ 122 := by
  induction x using b64EncGroups.induct with
  | case1 => simp [b64EncGroups] at hc
  | case2 a =>
      simp only [b64EncGroups, List.mem_cons, List.not_mem_nil, or_false] at hc
      rcases hc with h | h <;> exact h ▸ b64CharOf_bounds _
  | case3 a b =>
      simp only [b64EncGroups, List.mem_cons, List.not_mem_nil, or_false] at hc
      rcases hc with h | h | h <;> exact h ▸ b64CharOf_bounds _
  | case4 a b c' rest ih =>
      simp only [b64EncGroups, List.mem_cons] at hc
      rcases hc with h | h | h | h | h
      · exact h ▸ b64CharOf_bounds _
      · exact h ▸ b64CharOf_bounds _
      · exact h ▸ b64CharOf_bounds _
      · exact h ▸ b64CharOf_bounds _
      · exact ih h

theorem b64Vals_spec (x : List Nat) :
    b64Vals ((b64EncGroups x).filter (fun c => c != 13 && c != 10)) =
      b64Vals (b64EncGroups x) := by
  congr 1
  rw [List.filter_eq_self]
  intro c hc
  have h := mem_b64EncGroups_bounds x c hc
  simp only [bne_iff_ne, ne_eq, Bool.and_eq_true, decide_eq_true_eq]
  omega

theorem b64_roundtrip (x : List Nat) (hx : ∀ b ∈ x, b < 256) :
    base64RawURLDecode (base64RawURLEncode x) = some x := by
  unfold base64RawURLDecode base64RawURLEncode
  rw [b64Vals_spec x]
  induction x using b64EncGroups.induct with
  | case1 => simp [b64EncGroups, b64Vals, b64DecGroups]
  | case2 a =>
      have ha : a < 256 := hx a (by simp)
      simp only [b64EncGroups, b64Vals,
        b64ValOf_b64CharOf (show a / 4 < 64 by omega),
        b64ValOf_b64CharOf (show a % 4 * 16 < 64 by omega)]
      simp only [Option.map_some', Option.some_bind, b64DecGroups,
        Option.some.injEq, List.cons.injEq, and_true]
      omega
  | case3 a b =>
      have ha : a < 256 := hx a (by simp)
      have hb : b < 256 := hx b (by simp)
      simp only [b64EncGroups, b64Vals,
        b64ValOf_b64CharOf (show a / 4 < 64 by omega),
        b64ValOf_b64CharOf (show a % 4 * 16 + b / 16 < 64 by omega),
        b64ValOf_b64CharOf (show b % 16 * 4 < 64 by omega)]
      simp only [Option.map_some', Option.some_bind, b64DecGroups,
        Option.some.injEq, List.cons.injEq, and_true]
      omega
  | case4 a b c rest ih =>
      have ha : a < 256 := hx a (by simp)
      have hb : b < 256 := hx b (by simp)
      have hc : c < 256 := hx c (by simp)
      have hrest : ∀ v ∈ rest, v < 256 := fun v hv => hx v (by simp [hv])
      simp only [b64EncGroups, b64Vals,
        b64ValOf_b64CharOf (show a / 4 < 64 by omega),
        b64ValOf_b64CharOf (show a % 4 * 16 + b / 16 < 64 by omega),
        b64ValOf_b64CharOf (show b % 16 * 4 + c / 64 < 64 by omega),
        b64ValOf_b64CharOf (show c % 64 < 64 by omega)]
      specialize ih hrest
      cases hvals : b64Vals (b64EncGroups rest) with
      | none => rw [hvals] at ih; simp at ih
      | some vs =>
          rw [hvals] at ih
          rw [Option.some_bind] at ih
          simp only [Option.map_some', Option.some_bind, b64DecGroups, ih,
            Option.map_some', Option.some.injEq, List.cons.injEq, and_true]
          omega

/-! ### Lemmas: CRC-32 stays below `2^32`, and the codec round-trips. -/

theorem crc32Step_lt {c : Nat} (h : c < 4294967296) : crc32Step c < 4294967296 := by
  unfold crc32Step
  split
  · have h1 : c / 2 < 4294967296 := by omega
    have h2 : (0xEDB88320 : Nat) < 4294967296 := by norm_num
    calc c / 2 ^^^ 0xEDB88320 < 2 ^ 32 :=
          Nat.xor_lt_two_pow (n := 32) (by norm_num at h1 ⊢; omega) (by norm_num)
      _ = 4294967296 := by norm_num
  · omega

theorem crc32Step_iter_lt (n : Nat) {c : Nat} (h : c < 4294967296) :
    crc32Step^[n] c < 4294967296 := by
  induction n generalizing c with
  | zero => simpa using h
  | succ k ih =>
      rw [Function.iterate_succ_apply]
      exact ih (crc32Step_lt h)

theorem crc32Byte_lt {c b : Nat} (hc : c < 4294967296) (hb : b < 256) :
    crc32Byte c b < 4294967296 := by
  unfold crc32Byte
  refine crc32Step_iter_lt 8 ?_
  calc c ^^^ b < 2 ^ 32 :=
        Nat.xor_lt_two_pow (n := 32) (by norm_num at hc ⊢; omega) (by norm_num at hb ⊢; omega)
    _ = 4294967296 := by norm_num

theorem crc32_lt (data : List Nat) (h : ∀ b ∈ data, b < 256) :
    crc32 data < 4294967296 := by
  unfold crc32
  have hfold : data.foldl crc32Byte 0xFFFFFFFF < 4294967296 := by
    have : ∀ (l : List Nat) (c : Nat), (∀ b ∈ l, b < 256) → c < 4294967296 →
        l.foldl crc32Byte c < 4294967296 := by
      intro l
      induction l with
      | nil => intro c _ hc; simpa using hc
      | cons x xs ih =>
          intro c hl hc
          rw [List.foldl_cons]
          exact ih _ (fun b hb => hl b (by simp [hb])) (crc32Byte_lt hc (hl x (by simp)))
    exact this data _ h (by norm_num)
  calc data.foldl crc32Byte 0xFFFFFFFF ^^^ 0xFFFFFFFF < 2 ^ 32 :=
        Nat.xor_lt_two_pow (n := 32) (by norm_num at hfold ⊢; omega) (by norm_num)
    _ = 4294967296 := by norm_num

theorem be32Bytes_lt (c : Nat) : ∀ b ∈ be32Bytes c, b < 256 := by
  intro b hb
  simp only [be32Bytes, List.mem_cons, List.not_mem_nil, or_false] at hb
  rcases hb with h | h | h | h <;> omega

theorem be32ToNat_be32Bytes {c : Nat} (h : c < 4294967296) :
    be32ToNat (be32Bytes c) = c := by
  simp only [be32Bytes, be32ToNat]
  omega

theorem drop4_be32_append (c : Nat) (l : List Nat) : (be32Bytes c ++ l).drop 4 = l := rfl

theorem take4_be32_append (c : Nat) (l : List Nat) :
    (be32Bytes c ++ l).take 4 = be32Bytes c := rfl

theorem length_be32_append (c : Nat) (l : List Nat) :
    (be32Bytes c ++ l).length = 4 + l.length := by
  simp [be32Bytes]
  omega

/-- The obfuscation codec round-trips: decoding an encoded server name
recovers the name. -/
theorem decodeServerName_encodeServerName (name : List Nat) (h : ∀ b ∈ name, b < 256) :
    decodeServerName (encodeServerName name) = some name := by
  unfold encodeServerName decodeServerName
  have houter :
      base64RawURLDecode
          (base64RawURLEncode (be32Bytes (crc32 name) ++ base64RawURLEncode name)) =
        some (be32Bytes (crc32 name) ++ base64RawURLEncode name) := by
    refine b64_roundtrip _ ?_
    intro b hb
    rcases List.mem_append.1 hb with h1 | h1
    · exact be32Bytes_lt _ b h1
    · have := mem_b64EncGroups_bounds name b h1
      omega
  rw [houter, Option.some_bind]
  rw [if_neg (by rw [length_be32_append]; omega)]
  rw [drop4_be32_append, b64_roundtrip name h, Option.some_bind, take4_be32_append,
    be32ToNat_be32Bytes (crc32_lt name h)]
  simp

/-!  ## Claim C2: obfuscation codec round-trip. -/

/-- **C2**: for every string `name` (a byte list), `decodeServerName`
inverts `encodeServerName`, where the encoder emits base64url-no-pad of the
big-endian CRC32-IEEE of the name concatenated with the base64url-no-pad
encoding of the name. -/
theorem sni_codec_roundtrip (name : List Nat) (h : ∀ b ∈ name, b < 256) :
    decodeServerName (encodeServerName name) = some name ∧
    encodeServerName name =
      base64RawURLEncode (be32Bytes (crc32 name) ++ base64RawURLEncode name) :=
  ⟨decodeServerName_encodeServerName name h, rfl⟩

/-- Witness for C2 at the concrete name `gost`. -/
theorem sni_codec_roundtrip_witness :
    (∀ b ∈ asciiBytes "gost", b < 256) ∧
    (decodeServerName (encodeServerName (asciiBytes "gost")) = some (asciiBytes "gost") ∧
     encodeServerName (asciiBytes "gost") =
       base64RawURLEncode
         (be32Bytes (crc32 (asciiBytes "gost")) ++ base64RawURLEncode (asciiBytes "gost"))) :=
  ⟨by decide, sni_codec_roundtrip (asciiBytes "gost") (by decide)⟩

/-!  ## Claim C3: the decoder's failure condition. -/

/-- The failure condition exactly as claim C3 words it: the CRC32 prefix
encoded in the first four decoded bytes does not match the CRC32-IEEE
checksum of the decoded name bytes. -/
def specCRCMismatch (s : List Nat) : Bool :=
  match base64RawURLDecode s with
  | none => false
  | some b =>
      if b.length < 4 then false
      else
        match base64RawURLDecode (b.drop 4) with
        | none => false
        | some v => crc32 v != be32ToNat (b.take 4)

/-- **C3** (counterexample): on the empty input string the decoder fails
(the decoded payload is shorter than four bytes), yet there is no CRC
mismatch — so CRC mismatch is not the sole failure cause. -/
theorem sni_decode_failure_counterexample :
    ¬ ((decodeServerName [] = none) ↔ specCRCMismatch [] = true) := by
  decide

/-- **C3** (amended): `decodeServerName` fails iff the outer base64 decode
fails, or the decoded payload is shorter than four bytes, or the inner
base64 decode of the remainder fails, or the CRC32 prefix does not match
the checksum of the decoded name bytes. -/
theorem sni_decode_failure_amended (s : List Nat) :
    decodeServerName s = none ↔
      (base64RawURLDecode s = none ∨
        ∃ b, base64RawURLDecode s = some b ∧
          (b.length < 4 ∨
            base64RawURLDecode (b.drop 4) = none ∨
            ∃ v, base64RawURLDecode (b.drop 4) = some v ∧
              crc32 v ≠ be32ToNat (b.take 4))) := by
  cases houter : base64RawURLDecode s with
  | none => simp [decodeServerName, houter]
  | some b =>
      simp only [decodeServerName, houter, Option.some_bind, Option.some.injEq,
        reduceCtorEq, false_or, exists_eq_left']
      by_cases hlen : b.length < 4
      · simp [hlen]
      · simp only [hlen, if_false, false_or]
        cases hinner : base64RawURLDecode (b.drop 4) with
        | none => simp [hinner]
        | some v =>
            simp only [hinner, Option.some_bind, Option.some.injEq, reduceCtorEq,
              false_or, exists_eq_left']
            by_cases hcrc : crc32 v = be32ToNat (b.take 4)
            · simp [hcrc]
            · simp [hcrc, bne_iff_ne]

/-! ## TLS ClientHello extensions and `readClientHelloRecord` (`sni.go`).

The external `tls-dissector` library (not part of this repository) is
modelled structurally: a ClientHello's extension vector is a list of
extensions, where the `server_name` extension (type `0x0000`) carries a
parsed name and every other extension carries its type and raw payload.
`Extension.Bytes()` serializes an extension as a two-byte type, a two-byte
payload length, then the payload — so `Bytes()[4:]` is the payload. -/

inductive TLSExt where
  | serverName (name : List Nat)
  | rawExt (etype : Nat) (payload : List Nat)
deriving DecidableEq

/-- `Extension.Type()` of the dissector: `server_name` is `0x0000`. -/
def TLSExt.extType : TLSExt → Nat
  | .serverName _ => 0
  | .rawExt t _ => t

/-- The extension payload: a `server_name` extension carries a one-entry
server name list (two-byte list length, name type `0`, two-byte name
length, name); a raw extension carries its payload verbatim. -/
def TLSExt.payloadBytes : TLSExt → List Nat
  | .serverName name =>
      ((name.length + 3) / 256 % 256) :: ((name.length + 3) % 256) :: 0 ::
        (name.length / 256 % 256) :: (name.length % 256) :: name
  | .rawExt _ p => p

/-- `Extension.Bytes()`: two-byte type, two-byte payload length, payload. -/
def TLSExt.wireBytes (e : TLSExt) : List Nat :=
  (e.extType / 256 % 256) :: (e.extType % 256) ::
    (e.payloadBytes.length / 256 % 256) :: (e.payloadBytes.length % 256) :: e.payloadBytes

theorem TLSExt.wireBytes_drop4 (e : TLSExt) : e.wireBytes.drop 4 = e.payloadBytes := rfl

/-- The server-side pass of `readClientHelloRecord` over the extension list:
every `0xFFFE` extension whose payload (the bytes past the four-byte
extension header) decodes is removed and its decoded value becomes the
current host; a failing decode resets the host to the empty string (the Go
multi-assignment `host, err = decodeServerName(...)` assigns `""` on error)
and keeps the extension. -/
def filterFFFE (host : List Nat) : List TLSExt → List TLSExt × List Nat
  | [] => ([], host)
  | e :: rest =>
      if e.extType = 65534 then
        match decodeServerName (e.wireBytes.drop 4) with
        | some h => filterFFFE h rest
        | none =>
            let r := filterFFFE [] rest
            (e :: r.1, r.2)
      else
        let r := filterFFFE host rest
        (e :: r.1, r.2)

/-- The `server_name` pass of `readClientHelloRecord`: find the first
extension of type `0x0000` (the Go code's type assertion to
`*dissector.ServerNameExtension` panics on a type-`0` extension that is not
a parsed server name — modelled as `none`); if the current host is empty
take the extension's name; on the client side append a `0xFFFE` extension
carrying the obfuscated original name; overwrite the extension's name with
the host when the host is non-empty; stop at that extension. -/
def processSN (host : List Nat) (isClient : Bool) : List TLSExt → Option (List TLSExt × List Nat)
  | [] => some ([], host)
  | .serverName n :: rest =>
      let h1 := if host = [] then n else host
      let newName := if h1 ≠ [] then h1 else n
      let tail := if isClient then rest ++ [TLSExt.rawExt 65534 (encodeServerName n)] else rest
      some (TLSExt.serverName newName :: tail, h1)
  | .rawExt t p :: rest =>
      if t = 0 then none
      else (processSN host isClient rest).map (fun r => (TLSExt.rawExt t p :: r.1, r.2))

/-- Model of `readClientHelloRecord` (`sni.go`) at the level of the parsed
extension vector: the server side first strips decodable `0xFFFE`
extensions, then both sides rewrite the `server_name` extension. -/
def readClientHelloRecord (exts : List TLSExt) (host : List Nat) (isClient : Bool) :
    Option (List TLSExt × List Nat) :=
  if isClient then processSN host true exts
  else
    let r := filterFFFE host exts
    processSN r.2 false r.1

/-! ### Lemmas for the SNI rewriting round trip (claim C1). -/

theorem filterFFFE_clean (l : List TLSExt) (host : List Nat)
    (h : ∀ e ∈ l, e.extType ≠ 65534) : filterFFFE host l = (l, host) := by
  induction l generalizing host with
  | nil => rfl
  | cons e rest ih =>
      have he : e.extType ≠ 65534 := (h e (by simp))
      simp only [filterFFFE, if_neg he]
      rw [ih host (fun e' h' => h e' (by simp [h']))]

theorem filterFFFE_clean_append (l : List TLSExt) (host p : List Nat) (dec : List Nat)
    (hl : ∀ e ∈ l, e.extType ≠ 65534) (hp : decodeServerName p = some dec) :
    filterFFFE host (l ++ [TLSExt.rawExt 65534 p]) = (l, dec) := by
  induction l generalizing host with
  | nil =>
      simp [filterFFFE, TLSExt.extType, TLSExt.wireBytes_drop4, TLSExt.payloadBytes, hp]
  | cons e rest ih =>
      have he : e.extType ≠ 65534 := (hl e (by simp))
      simp only [List.cons_append, filterFFFE, if_neg he, List.append_eq]
      rw [ih host (fun e' h' => hl e' (by simp [h']))]

theorem processSN_prepend (pre l : List TLSExt) (host : List Nat) (ic : Bool)
    (h : ∀ e ∈ pre, e.extType ≠ 0) :
    processSN host ic (pre ++ l) =
      (processSN host ic l).map (fun r => (pre ++ r.1, r.2)) := by
  induction pre with
  | nil => simp [Option.map_id']
  | cons e rest ih =>
      cases e with
      | serverName n =>
          exact absurd rfl (h (TLSExt.serverName n) (List.mem_cons_self _ _))
      | rawExt t p =>
          have ht : t ≠ 0 := by
            have := h (TLSExt.rawExt t p) (List.mem_cons_self _ _)
            simpa [TLSExt.extType] using this
          simp only [List.cons_append, processSN, if_neg ht, List.append_eq]
          rw [ih (fun e' h' => h e' (by simp [h']))]
          rw [Option.map_map]
          rfl

/-! ## Claim C1: the SNI rewriting round trip. -/

/-- The original server name of the round-trip scenario. -/
def realName : List Nat := asciiBytes "real.example"

/-- The configured decoy host of the round-trip scenario. -/
def decoyName : List Nat := asciiBytes "decoy.example"

/-- **C1**: a ClientHello whose extensions carry one `server_name` extension
with name `real.example` (and otherwise no type-`0x0000` or type-`0xFFFE`
extensions), passed through the client rewrite with configured host
`decoy.example`, yields a record whose `server_name` is `decoy.example`
plus a trailing `0xFFFE` extension whose payload decodes to `real.example`;
the server rewrite applied to that record returns host `real.example` and a
record whose `server_name` is `real.example` with the `0xFFFE` extension
removed. -/
theorem sni_rewrite_roundtrip (pre post : List TLSExt)
    (hclean : ∀ e ∈ pre ++ post, e.extType ≠ 0 ∧ e.extType ≠ 65534) :
    readClientHelloRecord (pre ++ TLSExt.serverName realName :: post) decoyName true
      = some (pre ++ TLSExt.serverName decoyName ::
          (post ++ [TLSExt.rawExt 65534 (encodeServerName realName)]), decoyName)
    ∧ decodeServerName (encodeServerName realName) = some realName
    ∧ readClientHelloRecord
        (pre ++ TLSExt.serverName decoyName ::
          (post ++ [TLSExt.rawExt 65534 (encodeServerName realName)])) [] false
      = some (pre ++ TLSExt.serverName realName :: post, realName) := by
  have hpre0 : ∀ e ∈ pre, e.extType ≠ 0 := fun e he => (hclean e (by simp [he])).1
  have hdec : decodeServerName (encodeServerName realName) = some realName :=
    decodeServerName_encodeServerName realName (by decide)
  have hdecoy : decoyName ≠ [] := by decide
  have hreal : realName ≠ [] := by decide
  refine ⟨?_, hdec, ?_⟩
  · unfold readClientHelloRecord
    rw [if_pos rfl, processSN_prepend pre _ decoyName true hpre0]
    simp [processSN, hdecoy]
  · unfold readClientHelloRecord
    rw [if_neg (by simp)]
    have hassoc : pre ++ TLSExt.serverName decoyName ::
        (post ++ [TLSExt.rawExt 65534 (encodeServerName realName)]) =
        (pre ++ TLSExt.serverName decoyName :: post) ++
          [TLSExt.rawExt 65534 (encodeServerName realName)] := by
      simp
    rw [hassoc, filterFFFE_clean_append _ _ _ realName ?hcl hdec]
    case hcl =>
      intro e he
      rcases List.mem_append.1 he with h1 | h1
      · exact (hclean e (by simp [h1])).2
      · rcases List.mem_cons.1 h1 with h2 | h2
        · subst h2; simp [TLSExt.extType]
        · exact (hclean e (by simp [h2])).2
    rw [processSN_prepend pre _ realName false hpre0]
    simp [processSN, hreal]

/-- Witness for C1 at a ClientHello carrying only the `server_name`
extension. -/
theorem sni_rewrite_roundtrip_witness :
    readClientHelloRecord [TLSExt.serverName realName] decoyName true
      = some ([TLSExt.serverName decoyName,
          TLSExt.rawExt 65534 (encodeServerName realName)], decoyName)
    ∧ decodeServerName (encodeServerName realName) = some realName
    ∧ readClientHelloRecord [TLSExt.serverName decoyName,
          TLSExt.rawExt 65534 (encodeServerName realName)] [] false
      = some ([TLSExt.serverName realName], realName) :=
  sni_rewrite_roundtrip [] [] (by simp)

/-! ## Byte-level model of the dissector record/ClientHello codec.

`sniClientConn.obfuscate` feeds the written bytes through
`dissector.ReadRecord`, `ClientHelloHandshake.Decode`/`Encode` and
`Record.WriteTo`.  The external library is modelled here by a concrete
TLS wire codec: record = content type, two version bytes, two length
bytes, fragment; ClientHello = handshake type `1`, three length bytes,
version, 32-byte random, session id, cipher suites, compression methods,
extensions. -/

/-- Split off the first `n` bytes, failing when fewer are available. -/
def takeSplit (n : Nat) (l : List Nat) : Option (List Nat × List Nat) :=
  if n ≤ l.length then some (l.take n, l.drop n) else none

/-- Parse a `server_name` extension payload (one host-name entry). -/
def parseServerNameExt (p : List Nat) : Option TLSExt :=
  match p with
  | l1 :: l2 :: 0 :: n1 :: n2 :: name =>
      if l1 * 256 + l2 = name.length + 3 ∧ n1 * 256 + n2 = name.length then
        some (TLSExt.serverName name)
      else none
  | _ => none

/-- Parse an extension vector (consuming the whole input). -/
def parseExts (l : List Nat) : Option (List TLSExt) :=
  match l with
  | [] => some []
  | t1 :: t2 :: l1 :: l2 :: rest =>
      let len := l1 * 256 + l2
      if h : len ≤ rest.length then
        let payload := rest.take len
        let parsed :=
          if t1 * 256 + t2 = 0 then parseServerNameExt payload
          else some (TLSExt.rawExt (t1 * 256 + t2) payload)
        match parsed with
        | none => none
        | some e => (parseExts (rest.drop len)).map (e :: ·)
      else none
  | _ => none
termination_by l.length
decreasing_by
  simp only [List.length_drop, List.length_cons]
  omega

/-- Fields of a parsed ClientHello handshake message. -/
structure ClientHelloStruct where
  vmajor : Nat
  vminor : Nat
  random : List Nat
  sessionID : List Nat
  cipherSuites : List Nat
  compressionMethods : List Nat
  extensions : List TLSExt

/-- Parse a ClientHello handshake message (model of
`ClientHelloHandshake.Decode`). -/
def parseClientHello (b : List Nat) : Option ClientHelloStruct :=
  match b with
  | 1 :: h1 :: h2 :: h3 :: body =>
      if h1 * 65536 + h2 * 256 + h3 = body.length then
        match body with
        | vj :: vn :: rest =>
            (takeSplit 32 rest).bind fun (rnd, r1) =>
              match r1 with
              | sl :: r2 =>
                  (takeSplit sl r2).bind fun (sid, r3) =>
                    match r3 with
                    | c1 :: c2 :: r4 =>
                        (takeSplit (c1 * 256 + c2) r4).bind fun (cs, r5) =>
                          match r5 with
                          | ml :: r6 =>
                              (takeSplit ml r6).bind fun (cm, r7) =>
                                match r7 with
                                | e1 :: e2 :: r8 =>
                                    if e1 * 256 + e2 = r8.length then
                                      (parseExts r8).map fun es =>
                                        ⟨vj, vn, rnd, sid, cs, cm, es⟩
                                    else none
                                | _ => none
                          | _ => none
                    | _ => none
              | _ => none
        | _ => none
      else none
  | _ => none

/-- Serialize a ClientHello handshake message (model of
`ClientHelloHandshake.Encode`). -/
def encodeClientHello (ch : ClientHelloStruct) : List Nat :=
  let exts := (ch.extensions.map TLSExt.wireBytes).flatten
  let body :=
    ch.vmajor :: ch.vminor :: ch.random ++
      (ch.sessionID.length % 256) :: ch.sessionID ++
        (ch.cipherSuites.length / 256 % 256) :: (ch.cipherSuites.length % 256) ::
          ch.cipherSuites ++
            (ch.compressionMethods.length % 256) :: ch.compressionMethods ++
              (exts.length / 256 % 256) :: (exts.length % 256) :: exts
  1 :: (body.length / 65536 % 256) :: (body.length / 256 % 256) :: (body.length % 256) :: body

/-- Parse a TLS record header and its ClientHello fragment (model of
`dissector.ReadRecord` followed by `ClientHelloHandshake.Decode`); bytes
after the first record are dropped, as they are by the reader-based
source. -/
def parseRecordCH (p : List Nat) : Option (Nat × Nat × Nat × ClientHelloStruct) :=
  match p with
  | rt :: v1 :: v2 :: l1 :: l2 :: rest =>
      let len := l1 * 256 + l2
      if len ≤ rest.length then
        (parseClientHello (rest.take len)).map fun ch => (rt, v1, v2, ch)
      else none
  | _ => none

/-- Serialize a record (model of `Record.WriteTo`). -/
def encodeRecordBytes (rt v1 v2 : Nat) (frag : List Nat) : List Nat :=
  rt :: v1 :: v2 :: (frag.length / 256 % 256) :: (frag.length % 256) :: frag

/-- Byte-level `readClientHelloRecord`: parse the record and ClientHello,
rewrite the extension vector, re-encode. -/
def readClientHelloRecordBytes (p : List Nat) (host : List Nat) (isClient : Bool) :
    Option (List Nat × List Nat) :=
  (parseRecordCH p).bind fun r =>
    (readClientHelloRecord r.2.2.2.extensions host isClient).map fun q =>
      (encodeRecordBytes r.1 r.2.1 r.2.2.1
        (encodeClientHello { r.2.2.2 with extensions := q.1 }), q.2)

/-! ## The plaintext-HTTP branch of `sniClientConn.obfuscate`. -/

/-- Model of `bufio.Reader.ReadString('\n')`: the line up to and including
the first LF, the remaining bytes, and whether an LF was found (when not,
the read ends with `io.EOF`). -/
def readLine1 : List Nat → List Nat × List Nat × Bool
  | [] => ([], [], false)
  | c :: rest =>
      if c = 10 then ([10], rest, true)
      else
        match readLine1 rest with
        | (line, r, f) => (c :: line, r, f)

theorem readLine1_rest_lt (l : List Nat) (h : (readLine1 l).2.2 = true) :
    (readLine1 l).2.1.length < l.length := by
  induction l with
  | nil => simp [readLine1] at h
  | cons c rest ih =>
      by_cases hc : c = 10
      · simp [readLine1, hc]
      · rcases hr : readLine1 rest with ⟨line, r, f⟩
        rw [hr] at ih
        simp only [readLine1, if_neg hc, hr] at h ⊢
        have := ih h
        simp only [List.length_cons] at this ⊢
        omega

/-- The Go whitespace set of `strings.TrimSpace` (ASCII part). -/
def isGoSpaceByte (c : Nat) : Bool :=
  c == 9 || c == 10 || c == 11 || c == 12 || c == 13 || c == 32

/-- Model of `strings.TrimSpace` on byte lists. -/
def trimSpaceBytes (l : List Nat) : List Nat :=
  ((l.dropWhile isGoSpaceByte).reverse.dropWhile isGoSpaceByte).reverse

/-- Model of `strings.TrimPrefix`. -/
def dropIfPre (pre l : List Nat) : List Nat :=
  if pre.isPrefixOf l then l.drop pre.length else l

/-- Model of `strings.TrimSuffix`. -/
def dropIfSuf (suf l : List Nat) : List Nat :=
  if suf.isSuffixOf l then l.take (l.length - suf.length) else l

/-- The header-rewriting loop of `sniClientConn.obfuscate` for plaintext
HTTP: copy lines until the end of the header or a `Host` line; replace the
`Host` header by the configured host and add a `Gost-Target` header with
the obfuscated original, then drain the remaining bytes. -/
def httpLoop (chost : List Nat) (l : List Nat) : List Nat :=
  let r := readLine1 l
  if h : r.2.2 = false then r.1
  else if r.1 = [13, 10] then r.1 ++ r.2.1
  else if (asciiBytes "Host").isPrefixOf r.1 then
    let hostVal := trimSpaceBytes (dropIfSuf [13, 10] (dropIfPre (asciiBytes "Host:") r.1))
    asciiBytes "Host: " ++ chost ++ [13, 10] ++
      asciiBytes "Gost-Target: " ++ encodeServerName hostVal ++ [13, 10] ++ r.2.1
  else r.1 ++ httpLoop chost r.2.1
termination_by l.length
decreasing_by
  exact readLine1_rest_lt l (by revert h; cases (readLine1 l).2.2 <;> simp)

/-! ## `sniClientConn.Write` (claim C10). -/

/-- The per-connection obfuscation state of `sniClientConn`. -/
structure SniClientState where
  host : List Nat
  obfuscated : Bool
deriving DecidableEq

/-- Model of `sniClientConn.obfuscate`: pass-through when no host is
configured or the rewrite already happened; otherwise rewrite the first
ClientHello record (first byte `0x16`) or the HTTP header block.  `none`
models an error return (or the index panic on an empty buffer). -/
def sniObfuscate (c : SniClientState) (p : List Nat) : Option (SniClientState × List Nat) :=
  if c.host = [] then some (c, p)
  else if c.obfuscated then some (c, p)
  else
    match p with
    | [] => none
    | b :: _ =>
        if b = 22 then
          (readClientHelloRecordBytes p c.host true).map
            fun r => ({ c with obfuscated := true }, r.1)
        else some ({ c with obfuscated := true }, httpLoop c.host p)

/-- Model of `sniClientConn.Write`: obfuscate, write the rewritten bytes to
the underlying connection, and return the length of the caller's buffer.
The result is the new state, the bytes written downstream, and the returned
count. -/
def sniWrite (c : SniClientState) (p : List Nat) : Option (SniClientState × List Nat × Nat) :=
  (sniObfuscate c p).map fun r => (r.1, r.2, p.length)

/-- **C10**: a successful `sniClientConn.Write(p)` returns `len(p)`, the
length of the caller's buffer, whatever byte sequence the obfuscation
rewrite produced for the underlying connection. -/
theorem sni_write_returns_len (c : SniClientState) (p : List Nat)
    (out : SniClientState × List Nat × Nat) (h : sniWrite c p = some out) :
    out.2.2 = p.length := by
  unfold sniWrite at h
  cases e : sniObfuscate c p with
  | none => rw [e] at h; simp at h
  | some r =>
      rw [e] at h
      simp only [Option.map_some', Option.some.injEq] at h
      rw [← h]

/-- The client state of the C10 witness: decoy host `cdn.x`, not yet
obfuscated. -/
def c10State : SniClientState := ⟨asciiBytes "cdn.x", false⟩

/-- The written buffer of the C10 witness: a plaintext HTTP request. -/
def c10Buf : List Nat := asciiBytes "GET / HTTP/1.1\r\nHost: a.b\r\n\r\n"

/-- Witness for C10: the write succeeds, rewrites the header block to a
byte sequence of a different length, and still returns the caller's buffer
length. -/
theorem sni_write_returns_len_witness :
    sniWrite c10State c10Buf =
      some ((⟨asciiBytes "cdn.x", true⟩ : SniClientState),
        httpLoop (asciiBytes "cdn.x") c10Buf, c10Buf.length)
    ∧ ((⟨asciiBytes "cdn.x", true⟩ : SniClientState),
        httpLoop (asciiBytes "cdn.x") c10Buf, c10Buf.length).2.2 = c10Buf.length
    ∧ (httpLoop (asciiBytes "cdn.x") c10Buf).length ≠ c10Buf.length :=
  ⟨rfl, sni_write_returns_len c10State c10Buf _ rfl, by
    have hHost : asciiBytes "Host" = [72, 111, 115, 116] := by decide
    have hBuf : c10Buf = [71, 69, 84, 32, 47, 32, 72, 84, 84, 80, 47, 49, 46, 49, 13, 10,
        72, 111, 115, 116, 58, 32, 97, 46, 98, 13, 10, 13, 10] := by decide
    rw [hBuf]
    rw [httpLoop]
    simp only [readLine1]
    norm_num
    rw [httpLoop]
    simp [readLine1, hHost]
    decide⟩

/-! ## AutoHandler dispatch (`handler.go`, claim C4). -/

/-- Where `autoHandler.Handle` routes a connection. -/
inductive AutoRoute where
  | closedNoRoute
  | socks4
  | socks5
  | http
deriving DecidableEq

/-- A `bufio.Reader` over the connection: the underlying byte stream and
the read position.  `Peek` inspects without advancing. -/
structure BufReaderM where
  data : List Nat
  pos : Nat

/-- Model of `bufio.Reader.Peek(1)`. -/
def BufReaderM.peek1 (br : BufReaderM) : Option Nat :=
  (br.data.drop br.pos).head?

/-- The byte stream a `bufferdConn` wrapping `br` delivers to its reader. -/
def bufferdConnStream (br : BufReaderM) : List Nat :=
  br.data.drop br.pos

/-- Model of `autoHandler.Handle`: peek one byte (closing the connection on
failure), close without routing when the SOCKS4 version byte arrives under a
credentialed configuration, otherwise dispatch on the byte and hand the
chosen handler the buffered connection.  Users are opaque; only the list
matters.  The result is the route and, when routed, the byte stream the
downstream handler reads. -/
def autoHandle (users : List (List Nat)) (input : List Nat) :
    AutoRoute × Option (List Nat) :=
  let br : BufReaderM := ⟨input, 0⟩
  match br.peek1 with
  | none => (.closedNoRoute, none)
  | some b =>
      if b = 4 then
        if users ≠ [] then (.closedNoRoute, none)
        else (.socks4, some (bufferdConnStream br))
      else if b = 5 then (.socks5, some (bufferdConnStream br))
      else (.http, some (bufferdConnStream br))

/-- **C4**: the dispatch table of `autoHandler.Handle` — byte `0x04`
without users routes to SOCKS4, byte `0x04` with users closes without
routing, byte `0x05` routes to SOCKS5, any other byte routes to HTTP — and
every routed handler receives the stream replayed from byte 0. -/
theorem auto_dispatch (users : List (List Nat)) (b : Nat) (rest : List Nat) :
    (users = [] → autoHandle users (4 :: rest) = (.socks4, some (4 :: rest)))
    ∧ (users ≠ [] → autoHandle users (4 :: rest) = (.closedNoRoute, none))
    ∧ autoHandle users (5 :: rest) = (.socks5, some (5 :: rest))
    ∧ (b ≠ 4 → b ≠ 5 → autoHandle users (b :: rest) = (.http, some (b :: rest))) := by
  refine ⟨?_, ?_, ?_, ?_⟩
  · intro hu
    simp [autoHandle, BufReaderM.peek1, bufferdConnStream, hu]
  · intro hu
    simp [autoHandle, BufReaderM.peek1, bufferdConnStream, hu]
  · simp [autoHandle, BufReaderM.peek1, bufferdConnStream]
  · intro h4 h5
    simp [autoHandle, BufReaderM.peek1, bufferdConnStream, h4, h5]

/-- Witness for C4 at concrete inputs, covering all four dispatch rows
(the HTTP row at first byte `0x47`). -/
theorem auto_dispatch_witness :
    autoHandle [] [4, 1] = (.socks4, some [4, 1])
    ∧ autoHandle [asciiBytes "u:p"] [4, 1] = (.closedNoRoute, none)
    ∧ autoHandle [] [5, 2] = (.socks5, some [5, 2])
    ∧ autoHandle [] [71, 3] = (.http, some [71, 3]) :=
  ⟨(auto_dispatch [] 71 [1]).1 rfl,
   (auto_dispatch [asciiBytes "u:p"] 71 [1]).2.1 (by simp),
   (auto_dispatch [] 71 [2]).2.2.1,
   (auto_dispatch [] 71 [3]).2.2.2 (by decide) (by decide)⟩

/-! ## Hosts lookup (`hosts.go`, claim C5). -/

/-- A static host table entry: IP (opaque byte string here), canonical
hostname, aliases. -/
structure HostEntry where
  ip : List Nat
  hostname : List Nat
  aliases : List (List Nat)
deriving DecidableEq

/-- The scanning loop of `Hosts.Lookup`: a hostname match sets the result
and leaves the loop; an alias match sets the result but only leaves the
inner alias loop, so the scan continues. -/
def hostsLookupLoop (host : List Nat) : List HostEntry → Option (List Nat) → Option (List Nat)
  | [], acc => acc
  | e :: rest, acc =>
      if e.hostname = host then some e.ip
      else hostsLookupLoop host rest (if host ∈ e.aliases then some e.ip else acc)

/-- Model of `Hosts.Lookup` (`none` receiver allowed, as in the source). -/
def hostsLookup (h : Option (List HostEntry)) (host : List Nat) : Option (List Nat) :=
  match h with
  | none => none
  | some entries => hostsLookupLoop host entries none

/-- `Hosts.Lookup` as claim C5 words it: the IP of the first entry (in list
order) whose hostname or any alias equals the name. -/
def hostsLookupFirstMatch (entries : List HostEntry) (host : List Nat) : Option (List Nat) :=
  (entries.find? (fun e => e.hostname == host || e.aliases.contains host)).map
    (fun e => e.ip)

theorem hostsLookupLoop_spec (host : List Nat) (l : List HostEntry)
    (acc : Option (List Nat)) :
    hostsLookupLoop host l acc =
      match l.find? (fun e => e.hostname == host) with
      | some e => some e.ip
      | none =>
          match l.reverse.find? (fun e => e.aliases.contains host) with
          | some e => some e.ip
          | none => acc := by
  induction l generalizing acc with
  | nil => rfl
  | cons e rest ih =>
      by_cases hh : e.hostname = host
      · simp only [hostsLookupLoop, if_pos hh]
        rw [List.find?_cons_of_pos _ (by simp [hh])]
      · simp only [hostsLookupLoop, if_neg hh]
        rw [ih]
        rw [List.find?_cons_of_neg _ (by simp [hh])]
        cases hfind : rest.find? (fun e => e.hostname == host) with
        | some e' => rfl
        | none =>
            simp only [List.reverse_cons, List.find?_append]
            cases hrev : rest.reverse.find? (fun e => e.aliases.contains host) with
            | some e2 => rfl
            | none =>
                simp only [Option.or, List.find?]
                by_cases hal : host ∈ e.aliases
                · simp [hal]
                · simp [hal]

/-- The two-entry table on which `Lookup` disagrees with the claim. -/
def hostA : HostEntry := ⟨asciiBytes "1.1.1.1", asciiBytes "a", [asciiBytes "x"]⟩

/-- Second entry of the counterexample table, also carrying alias `x`. -/
def hostB : HostEntry := ⟨asciiBytes "2.2.2.2", asciiBytes "b", [asciiBytes "x"]⟩

/-- **C5** (counterexample): with two entries both carrying alias `x`,
`Lookup("x")` returns the second entry's IP, not the first entry's as the
claim states — the alias `break` only leaves the inner loop, so a later
alias match overwrites an earlier one. -/
theorem hosts_lookup_counterexample :
    hostsLookup (some [hostA, hostB]) (asciiBytes "x") = some (asciiBytes "2.2.2.2")
    ∧ hostsLookupFirstMatch [hostA, hostB] (asciiBytes "x") = some (asciiBytes "1.1.1.1") := by
  decide

/-- **C5** (amended): `Lookup(name)` returns the IP of the first entry
whose hostname equals `name`; when no hostname matches, the IP of the
*last* entry one of whose aliases equals `name` (an alias match does not
stop the scan); and `none` when nothing matches or the receiver is nil. -/
theorem hosts_lookup_amended (entries : List HostEntry) (host : List Nat) :
    hostsLookup (some entries) host =
      (match entries.find? (fun e => e.hostname == host) with
        | some e => some e.ip
        | none =>
            match entries.reverse.find? (fun e => e.aliases.contains host) with
            | some e => some e.ip
            | none => none)
    ∧ hostsLookup none host = none :=
  ⟨hostsLookupLoop_spec host entries none, rfl⟩

/-! ## Bypass (`bypass.go`, claims C6 and C9).

The `Matcher` interface is modelled by a type parameter `μ` together with
its `Match` function; `nil` interface values are `none`.  Config lines are
byte strings; a reload input is the list of lines the scanner delivered
plus whether the scanner ended with an error. -/

/-- Split a byte string at a separator byte (model of `strings.Split`). -/
def splitOnByte (sep : Nat) : List Nat → List (List Nat)
  | [] => [[]]
  | c :: rest =>
      let r := splitOnByte sep rest
      if c = sep then [] :: r
      else
        match r with
        | [] => [[c]]
        | h :: t => (c :: h) :: t

/-- The ASCII whitespace bytes trimmed by `strings.TrimSpace`. -/
def isGoSpaceB (c : Nat) : Bool :=
  c == 9 || c == 10 || c == 11 || c == 12 || c == 13 || c == 32

/-- Model of `strings.TrimSpace` on a byte string. -/
def trimGo (l : List Nat) : List Nat :=
  ((l.dropWhile isGoSpaceB).reverse.dropWhile isGoSpaceB).reverse

/-- Per-line normalization shared by the reload scanners: cut at `#`,
replace tabs by spaces, trim. -/
def cleanLine (line : List Nat) : List Nat :=
  trimGo ((line.takeWhile (fun c => c ≠ 35)).map (fun c => if c = 9 then 32 else c))

/-- Split a normalized line into whitespace-trimmed non-empty fields. -/
def lineFields (line : List Nat) : List (List Nat) :=
  ((splitOnByte 32 line).map trimGo).filter (fun s => s ≠ [])

/-- Model of the discarded-error use of `strconv.ParseBool`: the accepted
true spellings yield `true`; everything else (including a parse error)
leaves `false`. -/
def parseBoolGo (s : List Nat) : Bool :=
  s == asciiBytes "1" || s == asciiBytes "t" || s == asciiBytes "T" ||
    s == asciiBytes "true" || s == asciiBytes "TRUE" || s == asciiBytes "True"

/-- Numeric value of a digit string. -/
def digitsVal (l : List Nat) : Nat :=
  l.foldl (fun a c => a * 10 + (c - 48)) 0

/-- Modelled subset of Go `time.ParseDuration` (an optional sign, an
integer, one unit), in nanoseconds.  Inputs outside the subset yield 0,
matching the source's discarded-error assignments
(`x, _ = time.ParseDuration(s)`). -/
def parseDurationGo (s : List Nat) : Int :=
  let core : List Nat → Option Int := fun t =>
    let ds := t.takeWhile (fun c => 48 ≤ c && c ≤ 57)
    let us := t.dropWhile (fun c => 48 ≤ c && c ≤ 57)
    let unitVal : Option Int :=
      if us = asciiBytes "ns" then some 1
      else if us = asciiBytes "us" then some 1000
      else if us = asciiBytes "ms" then some 1000000
      else if us = asciiBytes "s" then some 1000000000
      else if us = asciiBytes "m" then some 60000000000
      else if us = asciiBytes "h" then some 3600000000000
      else none
    if ds = [] then none
    else unitVal.map (fun v => v * (digitsVal ds : Int))
  if s = asciiBytes "0" then 0
  else
    match s with
    | 45 :: rest => match core rest with | some v => -v | none => 0
    | 43 :: rest => (core rest).getD 0
    | _ => (core s).getD 0

/-- The mutable state of a `Bypass` (`μ` is the matcher interface). -/
structure BypassState (μ : Type) where
  matchers : List (Option μ)
  reversed : Bool
  period : Int
deriving DecidableEq

/-- One line of `Bypass.Reload`: skip blank lines; a two-field `reload`
directive updates the period in place; a two-field `reverse` directive
updates the polarity in place; anything else becomes a matcher pattern
appended to the fresh list (`newMatcher` models `NewMatcher`). -/
def bypassScanLine {μ : Type} (newMatcher : List Nat → Option μ)
    (st : BypassState μ) (ms : List (Option μ)) (rawLine : List Nat) :
    BypassState μ × List (Option μ) :=
  let line := cleanLine rawLine
  if line = [] then (st, ms)
  else if (asciiBytes "reload ").isPrefixOf line ∧ (lineFields line).length = 2 then
    ({ st with period := parseDurationGo ((lineFields line).getD 1 []) }, ms)
  else if (asciiBytes "reverse ").isPrefixOf line ∧ (lineFields line).length = 2 then
    ({ st with reversed := parseBoolGo ((lineFields line).getD 1 []) }, ms)
  else (st, ms ++ [newMatcher line])

/-- Model of `Bypass.Reload`: scan the delivered lines (directives mutate
the live state as they are read), then check the scanner error; only on
success is the matcher list swapped for the freshly built one.  The result
is (success?, resulting state). -/
def bypassReload {μ : Type} (newMatcher : List Nat → Option μ) (bp : BypassState μ)
    (lines : List (List Nat)) (scanErr : Bool) : Bool × BypassState μ :=
  let r := lines.foldl (fun acc l => bypassScanLine newMatcher acc.1 acc.2 l) (bp, [])
  if scanErr then (false, r.1)
  else (true, { r.1 with matchers := r.2 })

/-- Model of `net.SplitHostPort` then `strconv.Atoi` as used by
`Bypass.Contains`: split at the last colon (brackets carry IPv6 hosts; an
unbracketed host may not contain a colon; failure cases leave the address
unchanged), and strip the port when it parses to a positive number.
`strconv.Atoi` is modelled for sign-plus-digits inputs, with errors giving
0 as in the source's discarded-error assignment. -/
def splitLastColon : List Nat → Option (List Nat × List Nat)
  | [] => none
  | c :: rest =>
      match splitLastColon rest with
      | some (h, p) => some (c :: h, p)
      | none => if c = 58 then some ([], rest) else none

/-- Modelled subset of `strconv.Atoi`. -/
def atoiGo (s : List Nat) : Int :=
  let digits : List Nat → Option Int := fun t =>
    if t ≠ [] ∧ t.all (fun c => 48 ≤ c && c ≤ 57) then some (digitsVal t : Int) else none
  match s with
  | 45 :: rest => match digits rest with | some v => -v | none => 0
  | 43 :: rest => (digits rest).getD 0
  | _ => (digits s).getD 0

/-- The address rewrite at the top of `Bypass.Contains`: strip the port
when the address splits as host:port with a numeric positive port. -/
def stripPortGo (addr : List Nat) : List Nat :=
  match splitLastColon addr with
  | none => addr
  | some (h, p) =>
      let inner := (h.drop 1).dropLast
      let bracketed := h.headD 0 == 91 && h.getLastD 0 == 93
      let host := if bracketed then inner else h
      if (bracketed || !(h.contains 58)) && !(host == []) && !(p == []) && (0 < atoiGo p)
      then host else addr

/-- Model of `Bypass.Contains` (`mtch` is the `Match` method of the matcher
interface `μ`): `false` on a nil receiver; otherwise strip the port, walk
the matchers (skipping nil entries) until one matches, and combine with the
reversed polarity. -/
def bypassContains {μ : Type} (mtch : μ → List Nat → Bool)
    (bp : Option (BypassState μ)) (addr : List Nat) : Bool :=
  match bp with
  | none => false
  | some s =>
      let a := stripPortGo addr
      let matched := s.matchers.any (fun m =>
        match m with
        | none => false
        | some mm => mtch mm a)
      (!s.reversed && matched) || (s.reversed && !matched)

/-! ### Lemmas and claims for Bypass reload and Contains. -/

theorem bypassScanLine_matchers {μ : Type} (nm : List Nat → Option μ)
    (st : BypassState μ) (ms : List (Option μ)) (l : List Nat) :
    (bypassScanLine nm st ms l).1.matchers = st.matchers := by
  simp only [bypassScanLine]
  split_ifs <;> rfl

theorem bypassScan_matchers {μ : Type} (nm : List Nat → Option μ)
    (lines : List (List Nat)) :
    ∀ (st : BypassState μ) (ms : List (Option μ)),
      (lines.foldl (fun acc l => bypassScanLine nm acc.1 acc.2 l) (st, ms)).1.matchers =
        st.matchers := by
  induction lines with
  | nil => intro st ms; rfl
  | cons l rest ih =>
      intro st ms
      rw [List.foldl_cons]
      rcases hstep : bypassScanLine nm st ms l with ⟨st', ms'⟩
      have h1 : (bypassScanLine nm st ms l).1.matchers = st.matchers :=
        bypassScanLine_matchers nm st ms l
      rw [hstep] at h1
      simp only at h1
      calc (rest.foldl (fun acc l => bypassScanLine nm acc.1 acc.2 l) (st', ms')).1.matchers
          = st'.matchers := ih st' ms'
        _ = st.matchers := h1

theorem bypassScan_fresh {μ : Type} (nm : List Nat → Option μ)
    (lines : List (List Nat)) :
    ∀ (st₁ st₂ : BypassState μ) (ms : List (Option μ)),
      st₁.reversed = st₂.reversed → st₁.period = st₂.period →
      (lines.foldl (fun acc l => bypassScanLine nm acc.1 acc.2 l) (st₁, ms)).1.reversed =
        (lines.foldl (fun acc l => bypassScanLine nm acc.1 acc.2 l) (st₂, ms)).1.reversed
      ∧ (lines.foldl (fun acc l => bypassScanLine nm acc.1 acc.2 l) (st₁, ms)).1.period =
        (lines.foldl (fun acc l => bypassScanLine nm acc.1 acc.2 l) (st₂, ms)).1.period
      ∧ (lines.foldl (fun acc l => bypassScanLine nm acc.1 acc.2 l) (st₁, ms)).2 =
        (lines.foldl (fun acc l => bypassScanLine nm acc.1 acc.2 l) (st₂, ms)).2 := by
  induction lines with
  | nil => intro st₁ st₂ ms hr hp; exact ⟨hr, hp, rfl⟩
  | cons l rest ih =>
      intro st₁ st₂ ms hr hp
      rw [List.foldl_cons, List.foldl_cons]
      simp only [bypassScanLine]
      split_ifs
      · exact ih st₁ st₂ ms hr hp
      · exact ih _ _ ms (by simp [hr]) (by simp)
      · exact ih _ _ ms (by simp) (by simp [hp])
      · exact ih _ _ _ hr hp

/-- **C6** (counterexample): a reload stream consisting of the single
directive `reverse true` followed by a scanner error returns an error yet
leaves the Bypass with its reversed flag already flipped — the state is not
unchanged. -/
theorem bypass_reload_atomic_counterexample :
    (bypassReload (fun _ => (none : Option Unit)) ⟨[], false, 0⟩
        [asciiBytes "reverse true"] true).1 = false
    ∧ (bypassReload (fun _ => (none : Option Unit)) ⟨[], false, 0⟩
        [asciiBytes "reverse true"] true).2 ≠ ⟨[], false, 0⟩ := by
  decide

/-- **C6** (amended): `Reload` builds the fresh matcher list on the side —
the list installed on success does not depend on the old matchers, and on a
scanner error the live matcher list is untouched — but the `reversed` flag
and `period` are updated in place while the stream is scanned, so they hold
the scanned directive values even when `Reload` returns an error. -/
theorem bypass_reload_amended {μ : Type} (nm : List Nat → Option μ)
    (bp : BypassState μ) (lines : List (List Nat)) :
    (bypassReload nm bp lines true).1 = false
    ∧ (bypassReload nm bp lines true).2.matchers = bp.matchers
    ∧ (bypassReload nm bp lines false).1 = true
    ∧ (bypassReload nm bp lines false).2.reversed =
        (bypassReload nm bp lines true).2.reversed
    ∧ (bypassReload nm bp lines false).2.period =
        (bypassReload nm bp lines true).2.period
    ∧ (bypassReload nm bp lines false).2.matchers =
        (bypassReload nm ⟨[], bp.reversed, bp.period⟩ lines false).2.matchers := by
  refine ⟨rfl, bypassScan_matchers nm lines bp [], rfl, rfl, rfl, ?_⟩
  exact (bypassScan_fresh nm lines bp ⟨[], bp.reversed, bp.period⟩ [] rfl rfl).2.2

/-- **C9**: `Contains` on a nil `Bypass` is `false` for every address and
every matcher interface; `Contains` on a Bypass with an empty matcher list
returns exactly the reversed flag. -/
theorem bypass_contains_edge {μ : Type} (mtch : μ → List Nat → Bool)
    (addr : List Nat) (reversed : Bool) (period : Int) :
    bypassContains mtch (none : Option (BypassState μ)) addr = false
    ∧ bypassContains mtch (some ⟨[], reversed, period⟩) addr = reversed := by
  refine ⟨rfl, ?_⟩
  unfold bypassContains
  cases reversed <;> simp

/-! ## Resolver configuration and cache (claim C7). -/

/-- A configured name server (addr, protocol, TLS hostname). -/
structure NameServerM where
  addr : List Nat
  protocol : List Nat
  hostname : List Nat
deriving DecidableEq

/-- The configuration fields of a `resolver` (durations in nanoseconds). -/
structure ResolverState where
  timeoutNs : Int
  ttlNs : Int
  periodNs : Int
  servers : List NameServerM
deriving DecidableEq

/-- Model of `resolver.init`: a timeout at most 0 becomes the 30s default,
a TTL equal to 0 becomes the 60s default. -/
def resolverInitStep (r : ResolverState) : ResolverState :=
  { r with
    timeoutNs := if r.timeoutNs ≤ 0 then 30000000000 else r.timeoutNs,
    ttlNs := if r.ttlNs = 0 then 60000000000 else r.ttlNs }

/-- Model of `NewResolver`. -/
def newResolver (timeout ttl : Int) (servers : List NameServerM) : ResolverState :=
  resolverInitStep { timeoutNs := timeout, ttlNs := ttl, periodNs := 0, servers := servers }

/-- A resolver cache entry: the IPs and the store time in Unix seconds. -/
structure CacheItem where
  ips : List (List Nat)
  ts : Int
deriving DecidableEq

/-- Model of `resolver.loadCache` at wall-clock `nowNs`: a negative TTL
disables reads; an entry older than the TTL reads as empty. -/
def loadCache (r : ResolverState) (cache : List Nat → Option CacheItem)
    (nowNs : Int) (name : List Nat) : List (List Nat) :=
  if r.ttlNs < 0 then []
  else
    match cache name with
    | some item => if nowNs - item.ts * 1000000000 > r.ttlNs then [] else item.ips
    | none => []

/-- Model of `resolver.storeCache`: a negative TTL, an empty name or an
empty IP list stores nothing. -/
def storeCache (r : ResolverState) (cache : List Nat → Option CacheItem)
    (nowNs : Int) (name : List Nat) (ips : List (List Nat)) :
    List Nat → Option CacheItem :=
  if r.ttlNs < 0 ∨ name = [] ∨ ips = [] then cache
  else fun n => if n = name then some ⟨ips, nowNs / 1000000000⟩ else cache n

/-- One line of `resolver.Reload`: blank and empty-field lines are skipped;
two-or-more-field lines whose lowercased first field is `timeout`, `ttl` or
`reload` assign the parsed duration in place; other lines contribute a name
server built from the first one to three fields. -/
def resolverScanLine (st : ResolverState) (nss : List NameServerM) (raw : List Nat) :
    ResolverState × List NameServerM :=
  let line := cleanLine raw
  let ss := lineFields line
  if line = [] then (st, nss)
  else if ss = [] then (st, nss)
  else
    let k := (ss.headD []).map (fun c => if 65 ≤ c ∧ c ≤ 90 then c + 32 else c)
    if 2 ≤ ss.length ∧ k = asciiBytes "timeout" then
      ({ st with timeoutNs := parseDurationGo (ss.getD 1 []) }, nss)
    else if 2 ≤ ss.length ∧ k = asciiBytes "ttl" then
      ({ st with ttlNs := parseDurationGo (ss.getD 1 []) }, nss)
    else if 2 ≤ ss.length ∧ k = asciiBytes "reload" then
      ({ st with periodNs := parseDurationGo (ss.getD 1 []) }, nss)
    else
      let ns : NameServerM :=
        match ss with
        | [a] => ⟨a, [], []⟩
        | [a, p] => ⟨a, p, []⟩
        | a :: p :: h :: _ => ⟨a, p, h⟩
        | [] => ⟨[], [], []⟩
      (st, nss ++ [ns])

/-- Model of `resolver.Reload`: scan the delivered lines (the duration
directives assign in place), then check the scanner error; only on success
is the server list swapped.  The result is (success?, resulting state). -/
def resolverReload (r : ResolverState) (lines : List (List Nat)) (scanErr : Bool) :
    Bool × ResolverState :=
  let res := lines.foldl (fun acc l => resolverScanLine acc.1 acc.2 l) (r, [])
  if scanErr then (false, res.1)
  else (true, { res.1 with servers := res.2 })

/-- **C7** (counterexample): the state reached from `NewResolver(5s, 5s)`
by a successful `Reload` of the single line `timeout -5s` carries an
effective timeout of `-5s ≤ 0` that is *not* replaced by the 30s default —
the defaults are applied only at construction. -/
theorem resolver_defaults_counterexample :
    (resolverReload (newResolver 5000000000 5000000000 [])
        [asciiBytes "timeout -5s"] false).2.timeoutNs = -5000000000
    ∧ ¬ ((resolverReload (newResolver 5000000000 5000000000 [])
        [asciiBytes "timeout -5s"] false).2.timeoutNs = 30000000000)
    ∧ (resolverReload (newResolver 5000000000 5000000000 [])
        [asciiBytes "timeout -5s"] false).2.timeoutNs ≤ 0 := by
  decide

/-- **C7** (amended): the defaulting invariant holds at construction —
`NewResolver` replaces a timeout at most 0 by the 30s default and a TTL
equal to 0 by the 60s default (Reload assigns parsed durations directly and
re-applies no default) — and in every state a negative TTL disables cache
reads and writes. -/
theorem resolver_defaults_amended :
    (∀ (t ttl : Int) (srv : List NameServerM),
      (newResolver t ttl srv).timeoutNs = (if t ≤ 0 then 30000000000 else t)
      ∧ (newResolver t ttl srv).ttlNs = (if ttl = 0 then 60000000000 else ttl))
    ∧ (∀ (r : ResolverState) (cache : List Nat → Option CacheItem)
        (nowNs : Int) (name : List Nat), r.ttlNs < 0 →
        loadCache r cache nowNs name = [])
    ∧ (∀ (r : ResolverState) (cache : List Nat → Option CacheItem)
        (nowNs : Int) (name : List Nat) (ips : List (List Nat)), r.ttlNs < 0 →
        storeCache r cache nowNs name ips = cache) := by
  refine ⟨fun t ttl srv => ⟨rfl, rfl⟩, ?_, ?_⟩
  · intro r cache nowNs name h
    simp [loadCache, h]
  · intro r cache nowNs name ips h
    simp [storeCache, h]

/-- Witness for C7's amended claim at concrete inputs: defaults applied by
`NewResolver(0, 0)`, and a TTL of `-1` disabling the cache. -/
theorem resolver_defaults_amended_witness :
    ((newResolver 0 0 []).timeoutNs = (if (0 : Int) ≤ 0 then 30000000000 else 0)
      ∧ (newResolver 0 0 []).ttlNs = (if (0 : Int) = 0 then 60000000000 else 0))
    ∧ ((-1 : Int) < 0)
    ∧ loadCache ⟨1, -1, 0, []⟩ (fun _ => none) 0 [] = []
    ∧ storeCache ⟨1, -1, 0, []⟩ (fun _ => none) 0 [] [] = (fun _ => none) :=
  ⟨resolver_defaults_amended.1 0 0 [],
   by decide,
   resolver_defaults_amended.2.1 ⟨1, -1, 0, []⟩ (fun _ => none) 0 [] (by decide),
   resolver_defaults_amended.2.2 ⟨1, -1, 0, []⟩ (fun _ => none) 0 [] [] (by decide)⟩

/-! ## FailFilter (claim C8).

`FailFilter.Filter` lives in the selector sources; the `Node` type it
filters is defined elsewhere in the repository. -/

/-- Modelled from the spec: `Node` is opaque to this core and exposes
`failCount: u32` and `failTime: i64` (Unix seconds). -/
structure NodeM where
  failCount : Nat
  failTime : Int
deriving DecidableEq

/-- Modelled from the spec: `Clone()` yields a safely detached copy for
filter output (value-identical here). -/
def NodeM.clone (n : NodeM) : NodeM := n

/-- The configuration of a `FailFilter` (`failTimeout` in nanoseconds). -/
structure FailFilterM where
  maxFails : Int
  failTimeout : Int
deriving DecidableEq

/-- Model of `FailFilter.Filter` at wall-clock `nowNs`: pools of at most
one node and non-positive `maxFails` pass through unchanged; otherwise a
node is kept (as a clone) iff its fail count is below `uint32(maxFails)` —
the Go conversion truncates the int to 32 bits — or its last failure lies
at least `failTimeout` in the past. -/
def failFilterRun (f : FailFilterM) (nodes : List NodeM) (nowNs : Int) : List NodeM :=
  if nodes.length ≤ 1 ∨ f.maxFails ≤ 0 then nodes
  else
    (nodes.filter fun n =>
      decide (n.failCount < (f.maxFails % 4294967296).toNat
        ∨ f.failTimeout ≤ nowNs - n.failTime * 1000000000)).map NodeM.clone

/-- `FailFilter.Filter` as claim C8 words it: a node is dropped iff
`failCount ≥ MaxFails` and `now − failTime < FailTimeout`, with the same
pass-through exceptions. -/
def failFilterSpec (f : FailFilterM) (nodes : List NodeM) (nowNs : Int) : List NodeM :=
  if nodes.length ≤ 1 ∨ f.maxFails ≤ 0 then nodes
  else
    nodes.filter fun n =>
      decide (¬(f.maxFails ≤ (n.failCount : Int)
        ∧ nowNs - n.failTime * 1000000000 < f.failTimeout))

/-- **C8** (counterexample): with `MaxFails = 2^32` (a value an `int`
holds), `uint32(MaxFails)` truncates to 0, so both fresh nodes (fail count
0) are dropped although the claim's condition `failCount ≥ MaxFails` says
they must be kept. -/
theorem fail_filter_counterexample :
    failFilterRun ⟨4294967296, 1000000000⟩ [⟨0, 0⟩, ⟨0, 0⟩] 0 = []
    ∧ failFilterSpec ⟨4294967296, 1000000000⟩ [⟨0, 0⟩, ⟨0, 0⟩] 0 = [⟨0, 0⟩, ⟨0, 0⟩] := by
  decide

/-- **C8** (amended): whenever `MaxFails < 2^32` (so the `uint32`
conversion loses nothing), `Filter` behaves exactly as the claim states:
it drops a node iff `failCount ≥ MaxFails` and `now − failTime <
FailTimeout`, and passes pools of at most one node or a non-positive
`MaxFails` through unchanged; in general the comparison uses
`MaxFails mod 2^32`. -/
theorem fail_filter_amended (f : FailFilterM) (nodes : List NodeM) (nowNs : Int)
    (hmax : f.maxFails < 4294967296) :
    failFilterRun f nodes nowNs = failFilterSpec f nodes nowNs := by
  unfold failFilterRun failFilterSpec
  split_ifs with hguard
  · rfl
  · have hpos : 0 < f.maxFails := by
      rcases not_or.1 hguard with ⟨_, h2⟩
      omega
    have hfilter :
        (nodes.filter fun n =>
          decide (n.failCount < (f.maxFails % 4294967296).toNat
            ∨ f.failTimeout ≤ nowNs - n.failTime * 1000000000)) =
        nodes.filter fun n =>
          decide (¬(f.maxFails ≤ (n.failCount : Int)
            ∧ nowNs - n.failTime * 1000000000 < f.failTimeout)) := by
      refine List.filter_congr (fun n _ => decide_eq_decide.mpr ?_)
      omega
    rw [hfilter]
    have hclone : NodeM.clone = id := rfl
    rw [hclone, List.map_id]

/-- Witness for C8's amended claim: a concrete filter with
`MaxFails = 3 < 2^32` on a two-node pool. -/
theorem fail_filter_amended_witness :
    ((3 : Int) < 4294967296)
    ∧ failFilterRun ⟨3, 1000000000⟩ [⟨5, 0⟩, ⟨0, 0⟩] 2000000000 =
        failFilterSpec ⟨3, 1000000000⟩ [⟨5, 0⟩, ⟨0, 0⟩] 2000000000 :=
  ⟨by decide, fail_filter_amended ⟨3, 1000000000⟩ [⟨5, 0⟩, ⟨0, 0⟩] 2000000000 (by decide)⟩
